import Mathlib

/-!
Verification of the Cultured-Downloader-CLI core against its specification.

The Go sources are shallowly embedded: Go strings are `List Char` (`GoStr`),
Go `int` is `Int` (overflow is irrelevant for the quantities involved),
fallible functions return `Except`, `os.Exit(1)` / `panic` become error
results, and network / filesystem effects are supplied as explicit inputs
(oracles) to the embedded functions.
-/

set_option maxHeartbeats 1000000

/-- Go strings, embedded as lists of characters. -/
abbrev GoStr := List Char

/-- Error-code taxonomy. Modelled from the spec: the numeric error constants
(`DEV_ERROR`, `INPUT_ERROR`, ...) live in `utils/constants.go`, which is not
part of the provided sources; only their identities matter here. -/
inductive ErrCode where
  | DEV_ERROR
  | UNEXPECTED_ERROR
  | OS_ERROR
  | INPUT_ERROR
  | CONNECTION_ERROR
  | RESPONSE_ERROR
  | JSON_ERROR
deriving DecidableEq, Repr

instance {ε α : Type} [DecidableEq ε] [DecidableEq α] : DecidableEq (Except ε α) := fun x y =>
  match x, y with
  | .ok a, .ok b =>
    if h : a = b then isTrue (by rw [h]) else isFalse (fun he => by cases he; exact h rfl)
  | .error e, .error f =>
    if h : e = f then isTrue (by rw [h]) else isFalse (fun he => by cases he; exact h rfl)
  | .ok _, .error _ => isFalse (fun he => by cases he)
  | .error _, .ok _ => isFalse (fun he => by cases he)

/-- Decimal value of a digit string, as accumulated left to right
(the semantics of `strconv.Atoi` on an all-digit input). -/
def digitsToNat (l : GoStr) : Nat :=
  l.foldl (fun a c => a * 10 + (c.toNat - '0'.toNat)) 0

/-- Embedding of Go `strconv.Atoi`: an optional leading sign followed by one
or more decimal digits; anything else is an error (`none`). -/
def atoi (s : GoStr) : Option Int :=
  match s with
  | [] => none
  | c :: rest =>
    if c = '+' then
      if rest ≠ [] ∧ rest.all Char.isDigit then some (digitsToNat rest) else none
    else if c = '-' then
      if rest ≠ [] ∧ rest.all Char.isDigit then some (-(digitsToNat rest : Int)) else none
    else
      if (c :: rest).all Char.isDigit then some (digitsToNat (c :: rest)) else none

/-- Embedding of Go `strings.SplitN(s, sep, 2)` (for a one-character
separator), as the pair (part before the first `sep`, part after it).
Only used when `sep` occurs in `s`, mirroring the source's
`strings.Contains` guard. -/
def splitFirst (sep : Char) : GoStr → GoStr × GoStr
  | [] => ([], [])
  | c :: rest =>
    if c = sep then ([], rest)
    else
      let p := splitFirst sep rest
      (c :: p.1, p.2)

/-- Embedding of Go `strings.Split(s, sep)` for a one-character separator. -/
def splitAll (sep : Char) : GoStr → List GoStr
  | [] => [[]]
  | c :: rest =>
    if c = sep then [] :: splitAll sep rest
    else
      match splitAll sep rest with
      | [] => [[c]]
      | t :: ts => (c :: t) :: ts

/-- Embedding of `utils.GetMinMaxFromStr` (`src/utils/useful.go:304`).
Returns `(min, max, hasMaxNum)` or the error code the Go function wraps in
its `error` return. `""` defaults to `(1, 1, false)`; `"N-M"` splits at the
first dash and swaps the two numbers when needed; `"N"` duplicates. -/
def GetMinMaxFromStr (numStr : GoStr) : Except ErrCode (Int × Int × Bool) :=
  if numStr = [] then
    .ok (1, 1, false)
  else if numStr.contains '-' then
    match atoi (splitFirst '-' numStr).1 with
    | none => .error .UNEXPECTED_ERROR
    | some mn =>
      match atoi (splitFirst '-' numStr).2 with
      | none => .error .UNEXPECTED_ERROR
      | some mx =>
        if mn > mx then .ok (mx, mn, true) else .ok (mn, mx, true)
  else
    match atoi numStr with
    | none => .error .UNEXPECTED_ERROR
    | some mn => .ok (mn, mn, true)

example : GetMinMaxFromStr [] = .ok (1, 1, false) := by decide
example : GetMinMaxFromStr ['3', '-', '5'] = .ok (3, 5, true) := by decide
example : GetMinMaxFromStr ['7', '-', '2'] = .ok (2, 7, true) := by decide
example : GetMinMaxFromStr ['4'] = .ok (4, 4, true) := by decide
example : GetMinMaxFromStr ['0'] = .ok (0, 0, true) := by decide
example : GetMinMaxFromStr ['x'] = .error .UNEXPECTED_ERROR := by decide

theorem dash_not_digit : Char.isDigit '-' = false := by decide

theorem not_mem_of_all_digits {l : GoStr} (hd : l.all Char.isDigit = true) : '-' ∉ l := by
  intro hm
  have := List.all_eq_true.mp hd '-' hm
  simp [dash_not_digit] at this

theorem atoi_digits (l : GoStr) (hne : l ≠ []) (hd : l.all Char.isDigit = true) :
    atoi l = some (digitsToNat l : Int) := by
  match l with
  | [] => exact absurd rfl hne
  | c :: rest =>
    rw [List.all_cons, Bool.and_eq_true] at hd
    have hplus : ¬(c = '+') := by
      intro h
      rw [h] at hd
      simp at hd
    have hminus : ¬(c = '-') := by
      intro h
      rw [h] at hd
      simp at hd
    rw [atoi, if_neg hplus, if_neg hminus, if_pos]
    rw [List.all_cons, Bool.and_eq_true]
    exact hd

theorem splitFirst_append (sep : Char) (l1 l2 : GoStr) (h : sep ∉ l1) :
    splitFirst sep (l1 ++ sep :: l2) = (l1, l2) := by
  induction l1 with
  | nil => simp [splitFirst]
  | cons c cs ih =>
    rw [List.mem_cons, not_or] at h
    have hc : ¬(c = sep) := fun hh => h.1 hh.symm
    simp only [List.cons_append, splitFirst, if_neg hc, List.append_eq, ih h.2]

theorem contains_of_append_cons (l1 l2 : GoStr) :
    (l1 ++ '-' :: l2).contains '-' = true := by
  simp [List.contains]

theorem not_contains_of_all_digits {l : GoStr} (hd : l.all Char.isDigit = true) :
    l.contains '-' = false := by
  rw [Bool.eq_false_iff]
  intro hc
  exact not_mem_of_all_digits hd (by simpa using hc)

/-- **C3.** The page-range resolver `GetMinMaxFromStr`: the empty string
yields `(1, 1, bounded := false)`; an all-digit string `N` yields
`(N, N, bounded := true)`; `"N-M"` (both sides all-digit) yields
`(min N M, max N M, bounded := true)`; and every accepted input with
`bounded = true` satisfies `min ≤ max`. -/
theorem getMinMaxFromStr_spec :
    GetMinMaxFromStr [] = .ok (1, 1, false)
    ∧ (∀ l : GoStr, l ≠ [] → l.all Char.isDigit = true →
        GetMinMaxFromStr l = .ok ((digitsToNat l : Int), (digitsToNat l : Int), true))
    ∧ (∀ l1 l2 : GoStr, l1 ≠ [] → l2 ≠ [] →
        l1.all Char.isDigit = true → l2.all Char.isDigit = true →
        GetMinMaxFromStr (l1 ++ '-' :: l2) =
          .ok (min (digitsToNat l1 : Int) (digitsToNat l2 : Int),
               max (digitsToNat l1 : Int) (digitsToNat l2 : Int), true))
    ∧ (∀ s mn mx, GetMinMaxFromStr s = .ok (mn, mx, true) → mn ≤ mx) := by
  refine ⟨by decide, ?_, ?_, ?_⟩
  · intro l hne hd
    rw [GetMinMaxFromStr, if_neg hne,
      if_neg (by rw [not_contains_of_all_digits hd]; exact Bool.false_ne_true),
      atoi_digits l hne hd]
  · intro l1 l2 hne1 hne2 hd1 hd2
    have hne : l1 ++ '-' :: l2 ≠ [] := by simp
    rw [GetMinMaxFromStr, if_neg hne, if_pos (by simp [contains_of_append_cons]),
      splitFirst_append '-' l1 l2 (not_mem_of_all_digits hd1)]
    rw [atoi_digits l1 hne1 hd1, atoi_digits l2 hne2 hd2]
    dsimp only
    by_cases hlt : (digitsToNat l1 : Int) > (digitsToNat l2 : Int)
    · rw [if_pos hlt]
      have hmin : min (digitsToNat l1 : Int) (digitsToNat l2 : Int) = (digitsToNat l2 : Int) := by omega
      have hmax : max (digitsToNat l1 : Int) (digitsToNat l2 : Int) = (digitsToNat l1 : Int) := by omega
      rw [hmin, hmax]
    · rw [if_neg hlt]
      have hmin : min (digitsToNat l1 : Int) (digitsToNat l2 : Int) = (digitsToNat l1 : Int) := by omega
      have hmax : max (digitsToNat l1 : Int) (digitsToNat l2 : Int) = (digitsToNat l2 : Int) := by omega
      rw [hmin, hmax]
  · intro s mn mx h
    by_cases hs : s = []
    · rw [GetMinMaxFromStr, if_pos hs] at h
      simp at h
    · by_cases hc : s.contains '-'
      · rw [GetMinMaxFromStr, if_neg hs, if_pos hc] at h
        cases h1 : atoi (splitFirst '-' s).1 with
        | none => rw [h1] at h; simp at h
        | some v1 =>
          cases h2 : atoi (splitFirst '-' s).2 with
          | none => rw [h1, h2] at h; simp at h
          | some v2 =>
            rw [h1, h2] at h
            dsimp only at h
            by_cases hv : v1 > v2
            · rw [if_pos hv] at h
              simp only [Except.ok.injEq, Prod.mk.injEq] at h
              omega
            · rw [if_neg hv] at h
              simp only [Except.ok.injEq, Prod.mk.injEq] at h
              omega
      · rw [GetMinMaxFromStr, if_neg hs, if_neg hc] at h
        cases h1 : atoi s with
        | none => rw [h1] at h; simp at h
        | some v =>
          rw [h1] at h
          simp only [Except.ok.injEq, Prod.mk.injEq] at h
          omega

/-- Witness for C3: the input `"2-10"` resolves to `(2, 10, bounded)`. -/
theorem getMinMaxFromStr_spec_witness :
    GetMinMaxFromStr ['2', '-', '1', '0'] = .ok (2, 10, true) := by
  have h := getMinMaxFromStr_spec.2.2.1 ['2'] ['1', '0']
    (by decide) (by decide) (by decide) (by decide)
  simpa [digitsToNat] using h

/-- One dash-separated token of the shape `[1-9][0-9]*` (a positive integer
with no leading zero), expressed on code points: the first character lies in
`'1'..'9'` (code points 49–57) and the rest are digits. -/
def isPosIntToken (t : GoStr) : Bool :=
  match t with
  | [] => false
  | c :: rest => decide (49 ≤ c.toNat ∧ c.toNat ≤ 57) && rest.all Char.isDigit

/-- Modelled from the spec: `PAGE_NUM_REGEX` lives in `utils/constants.go`,
which is not under `src/`. The spec describes it as accepting `"N"` or
`"N-M"` with positive integers and rejecting non-digit tokens and zero
values ("0-9" is invalid), i.e. the anchored regex
`[1-9][0-9]*(-[1-9][0-9]*)?` matched against the whole string. -/
def pageNumRegexMatches (s : GoStr) : Bool :=
  if s.contains '-' then
    isPosIntToken (splitFirst '-' s).1 && isPosIntToken (splitFirst '-' s).2
  else
    isPosIntToken s

/-- Embedding of `utils.SliceMatchesRegex` (`src/utils/useful.go:552`):
returns whether every string matches, with the first outlier. -/
def SliceMatchesRegex (regex : GoStr → Bool) : List GoStr → Bool × GoStr
  | [] => (true, [])
  | s :: rest => if regex s then SliceMatchesRegex regex rest else (false, s)

/-- Embedding of `utils.ValidatePageNumInput` (`src/utils/useful.go:274`).
The Go function prints error messages and calls `os.Exit(1)` on invalid
input; the embedding returns `false` for those exit paths and `true` when
the function returns normally. -/
def ValidatePageNumInput (baseSliceLen : Nat) (pageNums : List GoStr) : Bool :=
  if baseSliceLen ≠ pageNums.length then false
  else if (SliceMatchesRegex pageNumRegexMatches pageNums).1 = false then false
  else true

/-- The claim's notion of an invalid dash-separated token: it contains a
non-digit character, or it is a (nonempty) token denoting the value zero. -/
def badPageToken (t : GoStr) : Bool :=
  !(t.all Char.isDigit) || (!t.isEmpty && decide (digitsToNat t = 0))

example : pageNumRegexMatches ['1', '-', '1', '0'] = true := by decide
example : pageNumRegexMatches ['7'] = true := by decide
example : pageNumRegexMatches ['0'] = false := by decide
example : pageNumRegexMatches ['0', '-', '9'] = false := by decide
example : pageNumRegexMatches ['1', '-', '2', '-', '3'] = false := by decide
example : splitAll '-' ['0', '-', '5'] = [['0'], ['5']] := by decide

theorem one_le_digits_foldl (l : GoStr) :
    ∀ a : Nat, 1 ≤ a → 1 ≤ l.foldl (fun x c => x * 10 + (c.toNat - '0'.toNat)) a := by
  induction l with
  | nil => intro a h; simpa using h
  | cons c cs ih =>
    intro a h
    rw [List.foldl_cons]
    exact ih _ (by omega)

theorem isPosIntToken_all_digits {t : GoStr} (h : isPosIntToken t = true) :
    t.all Char.isDigit = true := by
  match t with
  | [] => simp [isPosIntToken] at h
  | c :: rest =>
    rw [isPosIntToken, Bool.and_eq_true, decide_eq_true_eq] at h
    rw [List.all_cons, Bool.and_eq_true]
    refine ⟨?_, h.2⟩
    simp only [Char.isDigit, Bool.and_eq_true, decide_eq_true_eq]
    exact ⟨(by omega : 48 ≤ c.toNat), (by omega : c.toNat ≤ 57)⟩

theorem isPosIntToken_ne_zero {t : GoStr} (h : isPosIntToken t = true) :
    digitsToNat t ≠ 0 := by
  match t with
  | [] => simp [isPosIntToken] at h
  | c :: rest =>
    rw [isPosIntToken, Bool.and_eq_true, decide_eq_true_eq] at h
    have h1 : 1 ≤ digitsToNat (c :: rest) := by
      rw [digitsToNat, List.foldl_cons]
      have h0 : '0'.toNat = 48 := by decide
      exact one_le_digits_foldl rest _ (by rw [h0]; omega)
    omega

theorem badToken_not_posInt {t : GoStr} (hb : badPageToken t = true) :
    isPosIntToken t = false := by
  rw [Bool.eq_false_iff]
  intro hp
  rw [badPageToken, Bool.or_eq_true, Bool.not_eq_eq_eq_not, Bool.not_true,
    Bool.and_eq_true, Bool.not_eq_eq_eq_not, Bool.not_true, decide_eq_true_eq] at hb
  rcases hb with hb | hb
  · rw [isPosIntToken_all_digits hp] at hb
    cases hb
  · exact isPosIntToken_ne_zero hp hb.2

theorem splitAll_no_sep {sep : Char} {l : GoStr} (h : sep ∉ l) :
    splitAll sep l = [l] := by
  induction l with
  | nil => rfl
  | cons c cs ih =>
    rw [List.mem_cons, not_or] at h
    have hc : ¬(c = sep) := fun hh => h.1 hh.symm
    rw [splitAll, if_neg hc, ih h.2]

theorem splitAll_of_mem {sep : Char} {s : GoStr} (h : sep ∈ s) :
    splitAll sep s = (splitFirst sep s).1 :: splitAll sep (splitFirst sep s).2 := by
  induction s with
  | nil => cases h
  | cons c cs ih =>
    by_cases hc : c = sep
    · subst hc
      rw [splitAll, if_pos rfl, splitFirst, if_pos rfl]
    · have hmem : sep ∈ cs := by
        rcases List.mem_cons.mp h with hh | hh
        · exact absurd hh.symm hc
        · exact hh
      rw [splitAll, if_neg hc, splitFirst, if_neg hc, ih hmem]

theorem contains_eq_true_of_mem {l : GoStr} {a : Char} (h : a ∈ l) :
    l.contains a = true := by
  simpa using h

theorem contains_eq_false_of_not_mem {l : GoStr} {a : Char} (h : a ∉ l) :
    l.contains a = false := by
  rw [Bool.eq_false_iff]
  intro hc
  exact h (by simpa using hc)

theorem bad_token_fails_regex {s t : GoStr} (hmem : t ∈ splitAll '-' s)
    (hbad : badPageToken t = true) : pageNumRegexMatches s = false := by
  by_cases hc : '-' ∈ s
  · rw [splitAll_of_mem hc] at hmem
    rw [pageNumRegexMatches, if_pos (contains_eq_true_of_mem hc)]
    rcases List.mem_cons.mp hmem with ht | ht
    · subst ht
      rw [badToken_not_posInt hbad, Bool.false_and]
    · by_cases hc2 : '-' ∈ (splitFirst '-' s).2
      · have : isPosIntToken (splitFirst '-' s).2 = false := by
          rw [Bool.eq_false_iff]
          intro hp
          exact not_mem_of_all_digits (isPosIntToken_all_digits hp) hc2
        rw [this, Bool.and_false]
      · rw [splitAll_no_sep hc2] at ht
        rcases List.mem_singleton.mp ht with rfl
        rw [badToken_not_posInt hbad, Bool.and_false]
  · rw [splitAll_no_sep hc] at hmem
    rcases List.mem_singleton.mp hmem with rfl
    rw [pageNumRegexMatches, if_neg (by rw [contains_eq_false_of_not_mem hc]; exact Bool.false_ne_true)]
    exact badToken_not_posInt hbad

theorem sliceMatches_false {regex : GoStr → Bool} {slice : List GoStr} {s : GoStr}
    (hmem : s ∈ slice) (hfail : regex s = false) :
    (SliceMatchesRegex regex slice).1 = false := by
  induction slice with
  | nil => cases hmem
  | cons x rest ih =>
    rcases List.mem_cons.mp hmem with rfl | hmem2
    · rw [SliceMatchesRegex, if_neg (by rw [hfail]; exact Bool.false_ne_true)]
    · by_cases hx : regex x = true
      · rw [SliceMatchesRegex, if_pos hx]
        exact ih hmem2
      · rw [SliceMatchesRegex, if_neg hx]

/-- **C4.** Page-spec validation rejects every page-number string one of
whose dash-separated tokens contains a non-digit character or denotes zero;
in particular `"0"` and `"0-5"` are rejected. In the source the rejection
is the fatal pre-core exit of `ValidatePageNumInput` (the spec's
`InputError`), driven by `PAGE_NUM_REGEX` (modelled from the spec). -/
theorem validatePageNumInput_rejects :
    (∀ (baseSliceLen : Nat) (pageNums : List GoStr) (s t : GoStr),
        s ∈ pageNums → t ∈ splitAll '-' s → badPageToken t = true →
        ValidatePageNumInput baseSliceLen pageNums = false)
    ∧ pageNumRegexMatches ['0'] = false
    ∧ pageNumRegexMatches ['0', '-', '5'] = false
    ∧ ValidatePageNumInput 1 [['0']] = false
    ∧ ValidatePageNumInput 1 [['0', '-', '5']] = false := by
  refine ⟨?_, by decide, by decide, by decide, by decide⟩
  intro baseSliceLen pageNums s t hs ht hbad
  rw [ValidatePageNumInput]
  by_cases hlen : baseSliceLen ≠ pageNums.length
  · rw [if_pos hlen]
  · rw [if_neg hlen,
      if_pos (sliceMatches_false hs (bad_token_fails_regex ht hbad))]

/-- Witness for C4: the input list `["1", "0-5"]` is rejected because the
token `"0"` of `"0-5"` denotes zero. -/
theorem validatePageNumInput_rejects_witness :
    ValidatePageNumInput 2 [['1'], ['0', '-', '5']] = false :=
  validatePageNumInput_rejects.1 2 [['1'], ['0', '-', '5']] ['0', '-', '5'] ['0']
    (by decide) (by decide) (by decide)

/-- `models.KemonoCreatorToDl` (fields used by `KemonoDl.RemoveDuplicates`). -/
structure KemonoCreatorToDl where
  Service : GoStr
  CreatorId : GoStr
  PageNum : GoStr
deriving DecidableEq, Repr

/-- `models.KemonoPostToDl`. -/
structure KemonoPostToDl where
  Service : GoStr
  CreatorId : GoStr
  PostId : GoStr
deriving DecidableEq, Repr

/-- `kemono.KemonoDl`, restricted to the two slices that
`RemoveDuplicates` reads and writes (`CreatorsToDl`, `PostsToDl`). -/
structure KemonoDl where
  CreatorsToDl : List KemonoCreatorToDl
  PostsToDl : List KemonoPostToDl
deriving DecidableEq, Repr

/-- The creator map key built by `fmt.Sprintf("%s/%s", ...)`. -/
def creatorKey (c : KemonoCreatorToDl) : GoStr :=
  c.Service ++ '/' :: c.CreatorId

/-- The post map key built by `fmt.Sprintf("%s/%s/%s", ...)`. -/
def postKey (p : KemonoPostToDl) : GoStr :=
  p.Service ++ '/' :: (p.CreatorId ++ '/' :: p.PostId)

/-- The common seen-map loop of `utils.RemoveSliceDuplicates` and
`KemonoDl.RemoveDuplicates`: walk the slice, skip an element whose key was
already seen, otherwise record the key and keep the element. -/
def dedupByKey {α κ : Type} [DecidableEq κ] (key : α → κ) (seen : List κ) : List α → List α
  | [] => []
  | x :: xs =>
    if key x ∈ seen then dedupByKey key seen xs
    else x :: dedupByKey key (key x :: seen) xs

/-- Embedding of `utils.RemoveSliceDuplicates` (`src/utils/useful.go:376`):
the element is its own map key. -/
def RemoveSliceDuplicates {α : Type} [DecidableEq α] (s : List α) : List α :=
  dedupByKey id [] s

/-- Embedding of `KemonoDl.RemoveDuplicates` (kemono module). The source's
`len(...) > 0` guards and early return only skip loops that would be no-ops
on empty slices, so they are dropped. -/
def KemonoDl.RemoveDuplicates (k : KemonoDl) : KemonoDl :=
  { CreatorsToDl := dedupByKey creatorKey [] k.CreatorsToDl,
    PostsToDl := dedupByKey postKey [] k.PostsToDl }

/-- The claim's uniqueness key for a post: the tuple (service, creatorId, postId). -/
def postTupleKey (p : KemonoPostToDl) : GoStr × GoStr × GoStr :=
  (p.Service, p.CreatorId, p.PostId)

/-- The claim's uniqueness key for a creator: the tuple (service, creatorId). -/
def creatorTupleKey (c : KemonoCreatorToDl) : GoStr × GoStr :=
  (c.Service, c.CreatorId)

theorem dedup_key_not_seen {α κ : Type} [DecidableEq κ] (key : α → κ) :
    ∀ (l : List α) (seen : List κ) (x : α), x ∈ dedupByKey key seen l → key x ∉ seen := by
  intro l
  induction l with
  | nil => intro seen x hx; cases hx
  | cons y ys ih =>
    intro seen x hx
    rw [dedupByKey] at hx
    by_cases hy : key y ∈ seen
    · rw [if_pos hy] at hx
      exact ih seen x hx
    · rw [if_neg hy] at hx
      rcases List.mem_cons.mp hx with rfl | hx2
      · exact hy
      · intro hmem
        exact ih (key y :: seen) x hx2 (List.mem_cons_of_mem _ hmem)

theorem dedup_map_key_nodup {α κ : Type} [DecidableEq κ] (key : α → κ) :
    ∀ (l : List α) (seen : List κ), ((dedupByKey key seen l).map key).Nodup := by
  intro l
  induction l with
  | nil => intro seen; simp [dedupByKey]
  | cons y ys ih =>
    intro seen
    rw [dedupByKey]
    by_cases hy : key y ∈ seen
    · rw [if_pos hy]
      exact ih seen
    · rw [if_neg hy]
      rw [List.map_cons, List.nodup_cons]
      refine ⟨?_, ih (key y :: seen)⟩
      intro hmem
      rcases List.mem_map.mp hmem with ⟨x, hx, hkx⟩
      exact dedup_key_not_seen key ys (key y :: seen) x hx (hkx ▸ List.mem_cons_self _ _)

theorem dedup_eq_self {α κ : Type} [DecidableEq κ] (key : α → κ) :
    ∀ (l : List α) (seen : List κ), (l.map key).Nodup → (∀ x ∈ l, key x ∉ seen) →
      dedupByKey key seen l = l := by
  intro l
  induction l with
  | nil => intro seen _ _; rfl
  | cons y ys ih =>
    intro seen hnd hfresh
    rw [List.map_cons, List.nodup_cons] at hnd
    rw [dedupByKey, if_neg (hfresh y (List.mem_cons_self _ _))]
    congr 1
    refine ih (key y :: seen) hnd.2 ?_
    intro x hx hmem
    rcases List.mem_cons.mp hmem with hk | hk
    · exact hnd.1 (hk ▸ List.mem_map_of_mem key hx)
    · exact hfresh x (List.mem_cons_of_mem _ hx) hk

theorem dedup_sublist {α κ : Type} [DecidableEq κ] (key : α → κ) :
    ∀ (l : List α) (seen : List κ), (dedupByKey key seen l).Sublist l := by
  intro l
  induction l with
  | nil => intro seen; simp [dedupByKey]
  | cons y ys ih =>
    intro seen
    rw [dedupByKey]
    by_cases hy : key y ∈ seen
    · rw [if_pos hy]
      exact (ih seen).cons y
    · rw [if_neg hy]
      exact (ih (key y :: seen)).cons₂ y

theorem dedup_key_cover {α κ : Type} [DecidableEq κ] (key : α → κ) :
    ∀ (l : List α) (seen : List κ) (x : α), x ∈ l →
      key x ∈ seen ∨ key x ∈ (dedupByKey key seen l).map key := by
  intro l
  induction l with
  | nil => intro seen x hx; cases hx
  | cons y ys ih =>
    intro seen x hx
    rw [dedupByKey]
    by_cases hy : key y ∈ seen
    · rw [if_pos hy]
      rcases List.mem_cons.mp hx with rfl | hx2
      · exact Or.inl hy
      · exact ih seen x hx2
    · rw [if_neg hy]
      rcases List.mem_cons.mp hx with rfl | hx2
      · exact Or.inr (by rw [List.map_cons]; exact List.mem_cons_self _ _)
      · rcases ih (key y :: seen) x hx2 with hk | hk
        · rcases List.mem_cons.mp hk with hk2 | hk2
          · exact Or.inr (by rw [List.map_cons, hk2]; exact List.mem_cons_self _ _)
          · exact Or.inl hk2
        · exact Or.inr (by rw [List.map_cons]; exact List.mem_cons_of_mem _ hk)

theorem dedupByKey_congr {α κ₁ κ₂ : Type} [DecidableEq κ₁] [DecidableEq κ₂]
    (key₁ : α → κ₁) (key₂ : α → κ₂) :
    ∀ (l pre : List α),
      (∀ x y, (x ∈ pre ∨ x ∈ l) → (y ∈ pre ∨ y ∈ l) → (key₁ x = key₁ y ↔ key₂ x = key₂ y)) →
      dedupByKey key₁ (pre.map key₁) l = dedupByKey key₂ (pre.map key₂) l := by
  intro l
  induction l with
  | nil => intro pre _; rfl
  | cons y ys ih =>
    intro pre hiff
    have hmemiff : key₁ y ∈ pre.map key₁ ↔ key₂ y ∈ pre.map key₂ := by
      constructor
      · intro h
        rcases List.mem_map.mp h with ⟨p, hp, hkp⟩
        exact List.mem_map.mpr ⟨p, hp,
          (hiff p y (Or.inl hp) (Or.inr (List.mem_cons_self _ _))).mp hkp⟩
      · intro h
        rcases List.mem_map.mp h with ⟨p, hp, hkp⟩
        exact List.mem_map.mpr ⟨p, hp,
          (hiff p y (Or.inl hp) (Or.inr (List.mem_cons_self _ _))).mpr hkp⟩
    rw [dedupByKey, dedupByKey]
    by_cases h1 : key₁ y ∈ pre.map key₁
    · rw [if_pos h1, if_pos (hmemiff.mp h1)]
      refine ih pre ?_
      intro x z hx hz
      refine hiff x z ?_ ?_
      · rcases hx with hx | hx
        · exact Or.inl hx
        · exact Or.inr (List.mem_cons_of_mem _ hx)
      · rcases hz with hz | hz
        · exact Or.inl hz
        · exact Or.inr (List.mem_cons_of_mem _ hz)
    · rw [if_neg h1, if_neg (fun hh => h1 (hmemiff.mpr hh))]
      congr 1
      have hpm1 : key₁ y :: pre.map key₁ = (y :: pre).map key₁ := (List.map_cons key₁ y pre).symm
      have hpm2 : key₂ y :: pre.map key₂ = (y :: pre).map key₂ := (List.map_cons key₂ y pre).symm
      rw [hpm1, hpm2]
      refine ih (y :: pre) ?_
      intro x z hx hz
      refine hiff x z ?_ ?_
      · rcases hx with hx | hx
        · rcases List.mem_cons.mp hx with rfl | hx2
          · exact Or.inr (List.mem_cons_self _ _)
          · exact Or.inl hx2
        · exact Or.inr (List.mem_cons_of_mem _ hx)
      · rcases hz with hz | hz
        · rcases List.mem_cons.mp hz with rfl | hz2
          · exact Or.inr (List.mem_cons_self _ _)
          · exact Or.inl hz2
        · exact Or.inr (List.mem_cons_of_mem _ hz)

theorem append_sep_inj {sep : Char} :
    ∀ (a b r s : GoStr), sep ∉ a → sep ∉ b →
      a ++ sep :: r = b ++ sep :: s → a = b ∧ r = s := by
  intro a
  induction a with
  | nil =>
    intro b r s _ hb h
    cases b with
    | nil =>
      rw [List.nil_append, List.nil_append] at h
      exact ⟨rfl, (List.cons.injEq _ _ _ _ ▸ h).2⟩
    | cons c bs =>
      rw [List.nil_append, List.cons_append] at h
      have hc := (List.cons.injEq _ _ _ _ ▸ h).1
      exact absurd (hc ▸ List.mem_cons_self c bs) hb
  | cons c as ih =>
    intro b r s ha hb h
    cases b with
    | nil =>
      rw [List.cons_append, List.nil_append] at h
      have hc := (List.cons.injEq _ _ _ _ ▸ h).1
      exact absurd (hc ▸ List.mem_cons_self c as) ha
    | cons d bs =>
      rw [List.cons_append, List.cons_append] at h
      have h1 := (List.cons.injEq _ _ _ _ ▸ h).1
      have h2 := (List.cons.injEq _ _ _ _ ▸ h).2
      rw [List.mem_cons, not_or] at ha hb
      rcases ih bs r s ha.2 hb.2 h2 with ⟨hab, hrs⟩
      exact ⟨by rw [h1, hab], hrs⟩

theorem postKey_eq_iff {p q : KemonoPostToDl}
    (hp : '/' ∉ p.Service ∧ '/' ∉ p.CreatorId ∧ '/' ∉ p.PostId)
    (hq : '/' ∉ q.Service ∧ '/' ∉ q.CreatorId ∧ '/' ∉ q.PostId) :
    postKey p = postKey q ↔ postTupleKey p = postTupleKey q := by
  constructor
  · intro h
    rcases append_sep_inj _ _ _ _ hp.1 hq.1 h with ⟨h1, h2⟩
    rcases append_sep_inj _ _ _ _ hp.2.1 hq.2.1 h2 with ⟨h3, h4⟩
    rw [postTupleKey, postTupleKey, h1, h3, h4]
  · intro h
    rw [postTupleKey, postTupleKey, Prod.mk.injEq, Prod.mk.injEq] at h
    rw [postKey, postKey, h.1, h.2.1, h.2.2]

theorem creatorKey_eq_iff {c d : KemonoCreatorToDl}
    (hc : '/' ∉ c.Service ∧ '/' ∉ c.CreatorId)
    (hd : '/' ∉ d.Service ∧ '/' ∉ d.CreatorId) :
    creatorKey c = creatorKey d ↔ creatorTupleKey c = creatorTupleKey d := by
  constructor
  · intro h
    rcases append_sep_inj _ _ _ _ hc.1 hd.1 h with ⟨h1, h2⟩
    rw [creatorTupleKey, creatorTupleKey, h1, h2]
  · intro h
    rw [creatorTupleKey, creatorTupleKey, Prod.mk.injEq] at h
    rw [creatorKey, creatorKey, h.1, h.2]

/-- The first post of the spec's deduplication example. -/
def exPostA1 : KemonoPostToDl :=
  ⟨['k', 'e', 'm', 'o', 'n', 'o'], ['p', 'a', 't', 'r', 'e', 'o', 'n'], ['A', '1']⟩

/-- The second distinct post of the spec's deduplication example. -/
def exPostA2 : KemonoPostToDl :=
  ⟨['k', 'e', 'm', 'o', 'n', 'o'], ['p', 'a', 't', 'r', 'e', 'o', 'n'], ['A', '2']⟩

/-- **C5.** For identifier lists whose fields are slash-free (every
identifier produced by the URL-regex validation is), `RemoveDuplicates`
keeps exactly the first occurrence of each distinct tuple uniqueness key —
(service, creatorId, postId) for posts, (service, creatorId) for creators —
in first-seen order: the result equals the canonical first-occurrence
filter by tuple key, is a subsequence of the input, has pairwise-distinct
keys, and covers every input key; the spec's three-element example dedupes
to its two distinct posts in order. -/
theorem kemono_removeDuplicates_first_occurrence :
    (∀ k : KemonoDl,
      (∀ p ∈ k.PostsToDl, '/' ∉ p.Service ∧ '/' ∉ p.CreatorId ∧ '/' ∉ p.PostId) →
      (∀ c ∈ k.CreatorsToDl, '/' ∉ c.Service ∧ '/' ∉ c.CreatorId) →
      k.RemoveDuplicates.PostsToDl = dedupByKey postTupleKey [] k.PostsToDl
      ∧ k.RemoveDuplicates.CreatorsToDl = dedupByKey creatorTupleKey [] k.CreatorsToDl
      ∧ k.RemoveDuplicates.PostsToDl.Sublist k.PostsToDl
      ∧ (k.RemoveDuplicates.PostsToDl.map postTupleKey).Nodup
      ∧ (∀ p ∈ k.PostsToDl, postTupleKey p ∈ k.RemoveDuplicates.PostsToDl.map postTupleKey))
    ∧ (KemonoDl.RemoveDuplicates ⟨[], [exPostA1, exPostA1, exPostA2]⟩).PostsToDl
        = [exPostA1, exPostA2] := by
  constructor
  · intro k hposts hcreators
    have hpost_eq : k.RemoveDuplicates.PostsToDl = dedupByKey postTupleKey [] k.PostsToDl := by
      show dedupByKey postKey [] k.PostsToDl = dedupByKey postTupleKey [] k.PostsToDl
      have h := dedupByKey_congr postKey postTupleKey k.PostsToDl [] ?_
      · simpa using h
      · intro x y hx hy
        have hx2 : x ∈ k.PostsToDl := by
          rcases hx with hx | hx
          · cases hx
          · exact hx
        have hy2 : y ∈ k.PostsToDl := by
          rcases hy with hy | hy
          · cases hy
          · exact hy
        exact postKey_eq_iff (hposts x hx2) (hposts y hy2)
    have hcre_eq :
        k.RemoveDuplicates.CreatorsToDl = dedupByKey creatorTupleKey [] k.CreatorsToDl := by
      show dedupByKey creatorKey [] k.CreatorsToDl = dedupByKey creatorTupleKey [] k.CreatorsToDl
      have h := dedupByKey_congr creatorKey creatorTupleKey k.CreatorsToDl [] ?_
      · simpa using h
      · intro x y hx hy
        have hx2 : x ∈ k.CreatorsToDl := by
          rcases hx with hx | hx
          · cases hx
          · exact hx
        have hy2 : y ∈ k.CreatorsToDl := by
          rcases hy with hy | hy
          · cases hy
          · exact hy
        exact creatorKey_eq_iff (hcreators x hx2) (hcreators y hy2)
    refine ⟨hpost_eq, hcre_eq, ?_, ?_, ?_⟩
    · rw [hpost_eq]
      exact dedup_sublist postTupleKey k.PostsToDl []
    · rw [hpost_eq]
      exact dedup_map_key_nodup postTupleKey k.PostsToDl []
    · intro p hp
      rw [hpost_eq]
      rcases dedup_key_cover postTupleKey k.PostsToDl [] p hp with hmem | hmem
      · cases hmem
      · exact hmem
  · decide

/-- Witness for C5: the spec's example, with slash-free fields, dedupes to
the canonical first-occurrence filter by tuple key. -/
theorem kemono_removeDuplicates_first_occurrence_witness :
    (KemonoDl.RemoveDuplicates ⟨[], [exPostA1, exPostA1, exPostA2]⟩).PostsToDl
      = dedupByKey postTupleKey [] [exPostA1, exPostA1, exPostA2] :=
  (kemono_removeDuplicates_first_occurrence.1 ⟨[], [exPostA1, exPostA1, exPostA2]⟩
    (by decide) (by decide)).1

theorem dedupByKey_idem {α κ : Type} [DecidableEq κ] (key : α → κ) (l : List α) :
    dedupByKey key [] (dedupByKey key [] l) = dedupByKey key [] l :=
  dedup_eq_self key (dedupByKey key [] l) []
    (dedup_map_key_nodup key l []) (fun _ _ => List.not_mem_nil _)

/-- **C6.** Deduplication is idempotent, both for the generic
`RemoveSliceDuplicates` and for `KemonoDl.RemoveDuplicates`. -/
theorem removeDuplicates_idempotent :
    (∀ (α : Type) [DecidableEq α] (s : List α),
        RemoveSliceDuplicates (RemoveSliceDuplicates s) = RemoveSliceDuplicates s)
    ∧ (∀ k : KemonoDl, k.RemoveDuplicates.RemoveDuplicates = k.RemoveDuplicates) := by
  constructor
  · intro α inst s
    exact dedupByKey_idem id s
  · intro k
    rw [KemonoDl.RemoveDuplicates, KemonoDl.RemoveDuplicates]
    dsimp only
    rw [dedupByKey_idem, dedupByKey_idem]

/-- Signals sent to the spinner-based progress reporter: `progress.Start()`
with the batch total, `progress.MsgIncrement(...)` per item, and
`progress.Stop(hasErr)`. -/
inductive ProgressEvent where
  | start (total : Nat)
  | inc
  | stop (hadErr : Bool)
deriving DecidableEq, Repr

/-- The observable outcome of one `post.info` request issued by
`getPostDetails`, bundled with the outcome `processFanboxPost` would later
produce for that response body (direct URLs, GDrive URLs). URLs are
abstracted to `GoStr`. -/
inductive DetailNet where
  | connErr : DetailNet
  | response (statusCode : Nat) (parsed : Except ErrCode (List GoStr × List GoStr)) : DetailNet

/-- The channel send performed by one `getPostDetails` goroutine: a request
error or a non-200 status goes to `errChan` (both with `CONNECTION_ERROR`
in the source), a 200 response goes to `resChan`. -/
def postDetailTaskSend (o : DetailNet) :
    Sum ErrCode (Except ErrCode (List GoStr × List GoStr)) :=
  match o with
  | .connErr => .inl .CONNECTION_ERROR
  | .response code parsed => if code ≠ 200 then .inl .CONNECTION_ERROR else .inr parsed

/-- Output of the request phase of `getPostDetails`: progress increments,
the response channel, and the error channel after the `wg.Wait()` barrier. -/
structure Phase1Out where
  events : List ProgressEvent
  resChan : List (Except ErrCode (List GoStr × List GoStr))
  errChan : List ErrCode
deriving DecidableEq, Repr

/-- The goroutine loop of `getPostDetails`: every task sends exactly one
message to `resChan` or `errChan` and then increments the spinner. -/
def postDetailsPhase1 : List DetailNet → Phase1Out
  | [] => ⟨[], [], []⟩
  | o :: os =>
    let r := postDetailsPhase1 os
    match postDetailTaskSend o with
    | .inl e => ⟨.inc :: r.events, r.resChan, e :: r.errChan⟩
    | .inr x => ⟨.inc :: r.events, x :: r.resChan, r.errChan⟩

/-- Output of the JSON-processing phase of `getPostDetails`. -/
structure Phase2Out where
  events : List ProgressEvent
  urlsMap : List GoStr
  gdriveUrls : List GoStr
  errSlice : List ErrCode
deriving DecidableEq, Repr

/-- The `for res := range resChan` loop of `getPostDetails`: a parse error
goes to `errSlice`, a success appends its URL lists; each iteration
increments the spinner. -/
def postDetailsPhase2 : List (Except ErrCode (List GoStr × List GoStr)) → Phase2Out
  | [] => ⟨[], [], [], []⟩
  | r :: rs =>
    let rest := postDetailsPhase2 rs
    match r with
    | .error e => ⟨.inc :: rest.events, rest.urlsMap, rest.gdriveUrls, e :: rest.errSlice⟩
    | .ok ug => ⟨.inc :: rest.events, ug.1 ++ rest.urlsMap, ug.2 ++ rest.gdriveUrls, rest.errSlice⟩

/-- The observable behaviour of `PixivFanboxDl.getPostDetails`: the full
progress trace of its two spinner phases and its returned URL lists. -/
structure PostDetailsOut where
  events : List ProgressEvent
  urlsMap : List GoStr
  gdriveUrls : List GoStr
deriving DecidableEq, Repr

/-- Embedding of `PixivFanboxDl.getPostDetails`. `net` supplies the network
outcome (and downstream parse outcome) for each post ID. -/
def getPostDetails (postIds : List GoStr) (net : GoStr → DetailNet) : PostDetailsOut :=
  let ph1 := postDetailsPhase1 (postIds.map net)
  let ph2 := postDetailsPhase2 ph1.resChan
  ⟨.start postIds.length :: ph1.events
      ++ .stop (!ph1.errChan.isEmpty)
      :: .start ph1.resChan.length :: ph2.events
      ++ [.stop (!ph2.errSlice.isEmpty)],
   ph2.urlsMap, ph2.gdriveUrls⟩

/-- The observable outcome of one paginated-page request in
`getFanboxPosts`, bundled with the outcome `utils.LoadJsonFromResponse`
would produce for the response (the parsed JSON abstracted to the post IDs
of its items). -/
inductive PageNet where
  | connErr : PageNet
  | response (statusCode : Nat) (loadJson : Except ErrCode (List GoStr)) : PageNet

/-- The channel send performed by one page goroutine of `getFanboxPosts`:
a transport failure or non-200 status is logged via `utils.LogError` and
sends nothing (`none`); a JSON failure sends the error; a success sends the
parsed JSON. -/
def fanboxPageTaskSend (o : PageNet) : Option (Except ErrCode (List GoStr)) :=
  match o with
  | .connErr => none
  | .response code lj => if code ≠ 200 then none else some lj

/-- Result of the page-goroutine loop of `getFanboxPosts`: the response
channel after the barrier, and how many page errors were logged directly
instead of being sent to the channel. -/
structure PagesPhaseOut where
  resChan : List (Except ErrCode (List GoStr))
  logged : Nat
deriving DecidableEq, Repr

def fanboxPagesPhase : List PageNet → PagesPhaseOut
  | [] => ⟨[], 0⟩
  | o :: os =>
    let r := fanboxPagesPhase os
    match fanboxPageTaskSend o with
    | none => ⟨r.resChan, r.logged + 1⟩
    | some x => ⟨x :: r.resChan, r.logged⟩

/-- Result of the `for res := range resChan` loop of `getFanboxPosts`. -/
structure FanboxCollectOut where
  postIds : List GoStr
  errSlice : List ErrCode
deriving DecidableEq, Repr

def fanboxCollectResults : List (Except ErrCode (List GoStr)) → FanboxCollectOut
  | [] => ⟨[], []⟩
  | .error e :: rest =>
    let r := fanboxCollectResults rest
    ⟨r.postIds, e :: r.errSlice⟩
  | .ok ids :: rest =>
    let r := fanboxCollectResults rest
    ⟨ids ++ r.postIds, r.errSlice⟩

/-- Number of successfully parsed results in a response channel. -/
def okResCount (l : List (Except ErrCode (List GoStr))) : Nat :=
  l.countP fun r =>
    match r with
    | .ok _ => true
    | .error _ => false

/-- The page-selection loop of `getFanboxPosts` (`for idx, paginatedUrl :=
range paginatedUrls`): `curPage := idx+1`, `continue` while below
`minPage`, `break` once above `maxPage` when `hasMax`; the kept pages are
the ones a goroutine is spawned for. -/
def fanboxPageLoop {α : Type} (minPage maxPage : Int) (hasMax : Bool) : Nat → List α → List α
  | _, [] => []
  | curPage, u :: us =>
    if (curPage : Int) < minPage then fanboxPageLoop minPage maxPage hasMax (curPage + 1) us
    else if hasMax = true ∧ (curPage : Int) > maxPage then []
    else u :: fanboxPageLoop minPage maxPage hasMax (curPage + 1) us

/-- The claim's page selection, stated from the spec's words: keep exactly
the existing pages whose 1-based index `i` satisfies `min ≤ i` and, when
bounded, `i ≤ max`. -/
def specSelectedPages {α : Type} (minPage maxPage : Int) (hasMax : Bool) : Nat → List α → List α
  | _, [] => []
  | curPage, u :: us =>
    if minPage ≤ (curPage : Int) ∧ (hasMax = true → (curPage : Int) ≤ maxPage) then
      u :: specSelectedPages minPage maxPage hasMax (curPage + 1) us
    else
      specSelectedPages minPage maxPage hasMax (curPage + 1) us

/-- Outcome of the discovery request (`post.paginateCreator`) of
`getFanboxPosts`: the error cases of lines 171–219, or the creator's list
of paginated page URLs. -/
inductive DiscoveryNet where
  | connErr : DiscoveryNet
  | badStatus (status : GoStr) : DiscoveryNet
  | readErr : DiscoveryNet
  | jsonErr : DiscoveryNet
  | ok (paginatedUrls : List GoStr) : DiscoveryNet

/-- The observable behaviour of `getFanboxPosts` for one creator: which
pages got a request, the returned post IDs, the accumulated page-level
`errSlice` (logged, not returned, at the end of the function), and the
count of transport/status page errors logged directly. -/
structure FanboxPostsOut where
  requested : List GoStr
  postIds : List GoStr
  errSlice : List ErrCode
  logged : Nat
deriving DecidableEq, Repr

/-- Embedding of `getFanboxPosts`: discovery request, `GetMinMaxFromStr` on
the page spec, the page-selection loop, the bounded pool of page requests
(`net` supplies each page's outcome), and collection after the barrier. -/
def getFanboxPosts (creatorId pageNum : GoStr) (discovery : DiscoveryNet)
    (net : GoStr → PageNet) : Except ErrCode FanboxPostsOut :=
  match discovery with
  | .connErr => .error .CONNECTION_ERROR
  | .badStatus _ => .error .RESPONSE_ERROR
  | .readErr => .error .RESPONSE_ERROR
  | .jsonErr => .error .JSON_ERROR
  | .ok paginatedUrls =>
    match GetMinMaxFromStr pageNum with
    | .error e => .error e
    | .ok mmh =>
      let pages := fanboxPageLoop mmh.1 mmh.2.1 mmh.2.2 1 paginatedUrls
      let phase := fanboxPagesPhase (pages.map net)
      let collected := fanboxCollectResults phase.resChan
      .ok ⟨pages, collected.postIds, collected.errSlice, phase.logged⟩

/-- Result of the per-creator loop of `getCreatorsPosts`. -/
structure CreatorsLoopOut where
  events : List ProgressEvent
  postIds : List GoStr
  errSlice : List ErrCode
deriving DecidableEq, Repr

def creatorsLoop : List (Except ErrCode (List GoStr)) → CreatorsLoopOut
  | [] => ⟨[], [], []⟩
  | o :: os =>
    let r := creatorsLoop os
    match o with
    | .error e => ⟨.inc :: r.events, r.postIds, e :: r.errSlice⟩
    | .ok ids => ⟨.inc :: r.events, ids ++ r.postIds, r.errSlice⟩

/-- The observable behaviour of `PixivFanboxDl.getCreatorsPosts`. -/
structure CreatorsPostsRun where
  events : List ProgressEvent
  PostIds : List GoStr
  errSlice : List ErrCode
deriving DecidableEq, Repr

/-- Embedding of `PixivFanboxDl.getCreatorsPosts`. `postIds0` is the
pre-existing `pf.PostIds`; `fetch` abstracts `getFanboxPosts` for one
(creatorId, pageNum) pair. The source panics with `DEV_ERROR` when the
creator-ID and page-number slices have different lengths, before any
progress reporting or network request; the panic is modelled as
`Except.error`, and the error branch never consults `fetch`. -/
def getCreatorsPosts (postIds0 creatorIds creatorPageNums : List GoStr)
    (fetch : GoStr → GoStr → Except ErrCode (List GoStr)) : Except ErrCode CreatorsPostsRun :=
  if creatorIds.length ≠ creatorPageNums.length then
    .error .DEV_ERROR
  else
    let loop := creatorsLoop ((creatorIds.zip creatorPageNums).map fun cp => fetch cp.1 cp.2)
    .ok ⟨.start creatorIds.length :: loop.events ++ [.stop (!loop.errSlice.isEmpty)],
         RemoveSliceDuplicates (postIds0 ++ loop.postIds), loop.errSlice⟩

theorem phase1_count (outcomes : List DetailNet) :
    (postDetailsPhase1 outcomes).resChan.length + (postDetailsPhase1 outcomes).errChan.length
      = outcomes.length := by
  induction outcomes with
  | nil => rfl
  | cons o os ih =>
    rw [postDetailsPhase1]
    cases postDetailTaskSend o with
    | inl e =>
      dsimp only
      rw [List.length_cons, List.length_cons]
      omega
    | inr x =>
      dsimp only
      rw [List.length_cons, List.length_cons]
      omega

theorem pagesPhase_count (pages : List PageNet) :
    (fanboxPagesPhase pages).resChan.length + (fanboxPagesPhase pages).logged
      = pages.length := by
  induction pages with
  | nil => rfl
  | cons o os ih =>
    rw [fanboxPagesPhase]
    cases fanboxPageTaskSend o with
    | none =>
      dsimp only
      rw [List.length_cons]
      omega
    | some x =>
      dsimp only
      rw [List.length_cons, List.length_cons]
      omega

theorem collect_count (l : List (Except ErrCode (List GoStr))) :
    okResCount l + (fanboxCollectResults l).errSlice.length = l.length := by
  induction l with
  | nil => rfl
  | cons r rs ih =>
    cases r with
    | error e =>
      simp only [fanboxCollectResults, okResCount, List.countP_cons, List.length_cons,
        if_neg, if_pos] at ih ⊢
      simp at ih ⊢
      omega
    | ok ids =>
      simp only [fanboxCollectResults, okResCount, List.countP_cons, List.length_cons] at ih ⊢
      simp at ih ⊢
      omega

/-- Counterexample to **C1** as stated: in the list phase, a page task
whose request fails at the transport level sends nothing to the response
channel — its error is logged immediately, not accumulated — so for the
one-page batch `[connErr]` the number of parsed results plus the number of
accumulated errors is 0, not 1. The second conjunct traces the same input
through the whole of `getFanboxPosts` (one existing page, empty page spec,
the single page request failing): one page was requested, yet the returned
post IDs, the accumulated errors, and everything except the direct log are
empty. -/
theorem pool_outcome_accounting_counterexample :
    (okResCount (fanboxPagesPhase [PageNet.connErr]).resChan
        + (fanboxCollectResults (fanboxPagesPhase [PageNet.connErr]).resChan).errSlice.length
        ≠ [PageNet.connErr].length)
    ∧ getFanboxPosts ['c'] [] (DiscoveryNet.ok [['u']]) (fun _ => PageNet.connErr)
        = .ok ⟨[['u']], [], [], 1⟩ := by
  constructor
  · decide
  · decide

/-- **C1 (amended).** In the detail phase every task contributes exactly
one outcome, so parsed results plus accumulated errors equal the task
count. In the list phase a page task whose request fails at the transport
or status level logs its error directly and contributes nothing to the
channels, so parsed results plus accumulated errors plus directly-logged
errors equal the page count (and results + accumulated errors alone can
fall short of it). -/
theorem pool_outcome_accounting :
    (∀ outcomes : List DetailNet,
        (postDetailsPhase1 outcomes).resChan.length
          + (postDetailsPhase1 outcomes).errChan.length = outcomes.length)
    ∧ (∀ pages : List PageNet,
        okResCount (fanboxPagesPhase pages).resChan
          + (fanboxCollectResults (fanboxPagesPhase pages).resChan).errSlice.length
          + (fanboxPagesPhase pages).logged
          = pages.length) := by
  constructor
  · exact phase1_count
  · intro pages
    have h1 := pagesPhase_count pages
    have h2 := collect_count (fanboxPagesPhase pages).resChan
    omega

theorem specSelected_empty_of_past_max {α : Type} (mn mx : Int) :
    ∀ (us : List α) (cur : Nat), mx < (cur : Int) →
      specSelectedPages mn mx true cur us = [] := by
  intro us
  induction us with
  | nil => intro cur _; rfl
  | cons u tail ih =>
    intro cur hcur
    rw [specSelectedPages,
      if_neg (fun hh => absurd (hh.2 rfl) (by omega))]
    exact ih (cur + 1) (by push_cast; omega)

theorem pageLoop_eq_spec {α : Type} (mn mx : Int) (hm : Bool) :
    ∀ (us : List α) (cur : Nat),
      fanboxPageLoop mn mx hm cur us = specSelectedPages mn mx hm cur us := by
  intro us
  induction us with
  | nil => intro cur; rfl
  | cons u tail ih =>
    intro cur
    rw [fanboxPageLoop, specSelectedPages]
    by_cases h1 : (cur : Int) < mn
    · rw [if_pos h1, if_neg (fun hh => absurd hh.1 (by omega)), ih]
    · by_cases h2 : hm = true ∧ (cur : Int) > mx
      · rw [if_neg h1, if_pos h2, if_neg (fun hh => absurd (hh.2 h2.1) (by omega)), h2.1]
        exact (specSelected_empty_of_past_max mn mx tail (cur + 1) (by push_cast; omega)).symm
      · rw [if_neg h1, if_neg h2,
          if_pos ⟨by omega, fun hhm => by
            by_contra hgt
            exact h2 ⟨hhm, by omega⟩⟩, ih]

theorem pageLoop_skips_all {α : Type} (mn mx : Int) (hm : Bool) :
    ∀ (us : List α) (cur : Nat), (cur : Int) + us.length ≤ mn →
      fanboxPageLoop mn mx hm cur us = [] := by
  intro us
  induction us with
  | nil => intro cur _; rfl
  | cons u tail ih =>
    intro cur hle
    rw [List.length_cons] at hle
    rw [fanboxPageLoop, if_pos (by push_cast at hle ⊢; omega)]
    exact ih (cur + 1) (by push_cast at hle ⊢; omega)

/-- **C2.** The list fetcher requests exactly the existing pages whose
1-based index `i` satisfies `min ≤ i` and, when bounded, `i ≤ max`: the
source's continue/break loop equals the claim's selection, a `min` beyond
the page count requests nothing, and on a 7-page creator the spec `"3-5"`
requests exactly pages 3,4,5 while `"10-20"` requests none (with
`getFanboxPosts` returning an empty, error-free result). -/
theorem fanbox_page_selection :
    (∀ (urls : List GoStr) (mn mx : Int) (hm : Bool),
        fanboxPageLoop mn mx hm 1 urls = specSelectedPages mn mx hm 1 urls)
    ∧ (∀ (urls : List GoStr) (mn mx : Int) (hm : Bool),
        (urls.length : Int) < mn → fanboxPageLoop mn mx hm 1 urls = [])
    ∧ GetMinMaxFromStr ['3', '-', '5'] = .ok (3, 5, true)
    ∧ fanboxPageLoop 3 5 true 1
        [['1'], ['2'], ['3'], ['4'], ['5'], ['6'], ['7']] = [['3'], ['4'], ['5']]
    ∧ GetMinMaxFromStr ['1', '0', '-', '2', '0'] = .ok (10, 20, true)
    ∧ fanboxPageLoop 10 20 true 1
        [['1'], ['2'], ['3'], ['4'], ['5'], ['6'], ['7']] = []
    ∧ getFanboxPosts ['c'] ['3', '-', '5']
        (DiscoveryNet.ok [['1'], ['2'], ['3'], ['4'], ['5'], ['6'], ['7']])
        (fun u => PageNet.response 200 (.ok [u]))
        = .ok ⟨[['3'], ['4'], ['5']], [['3'], ['4'], ['5']], [], 0⟩
    ∧ getFanboxPosts ['c'] ['1', '0', '-', '2', '0']
        (DiscoveryNet.ok [['1'], ['2'], ['3'], ['4'], ['5'], ['6'], ['7']])
        (fun u => PageNet.response 200 (.ok [u]))
        = .ok ⟨[], [], [], 0⟩ := by
  refine ⟨?_, ?_, by decide, by decide, by decide, by decide, by decide, by decide⟩
  · intro urls mn mx hm
    exact pageLoop_eq_spec mn mx hm urls 1
  · intro urls mn mx hm hlt
    exact pageLoop_skips_all mn mx hm urls 1 (by push_cast; omega)

/-- Witness for C2: a lower bound beyond a 3-page creator requests
nothing. -/
theorem fanbox_page_selection_witness :
    fanboxPageLoop 10 20 true 1 ([['1'], ['2'], ['3']] : List GoStr) = [] :=
  fanbox_page_selection.2.1 [['1'], ['2'], ['3']] 10 20 true (by decide)

theorem phase1_events (outcomes : List DetailNet) :
    (postDetailsPhase1 outcomes).events
      = List.replicate outcomes.length ProgressEvent.inc := by
  induction outcomes with
  | nil => rfl
  | cons o os ih =>
    rw [postDetailsPhase1]
    cases postDetailTaskSend o with
    | inl e =>
      dsimp only
      rw [List.length_cons, List.replicate_succ, ih]
    | inr x =>
      dsimp only
      rw [List.length_cons, List.replicate_succ, ih]

theorem phase2_events (l : List (Except ErrCode (List GoStr × List GoStr))) :
    (postDetailsPhase2 l).events = List.replicate l.length ProgressEvent.inc := by
  induction l with
  | nil => rfl
  | cons r rs ih =>
    cases r with
    | error e =>
      rw [postDetailsPhase2]
      dsimp only
      rw [List.length_cons, List.replicate_succ, ih]
    | ok ug =>
      rw [postDetailsPhase2]
      dsimp only
      rw [List.length_cons, List.replicate_succ, ih]

theorem creatorsLoop_events (l : List (Except ErrCode (List GoStr))) :
    (creatorsLoop l).events = List.replicate l.length ProgressEvent.inc := by
  induction l with
  | nil => rfl
  | cons r rs ih =>
    cases r with
    | error e =>
      rw [creatorsLoop]
      dsimp only
      rw [List.length_cons, List.replicate_succ, ih]
    | ok ids =>
      rw [creatorsLoop]
      dsimp only
      rw [List.length_cons, List.replicate_succ, ih]

/-- **C7.** Every progress-reported phase starts the reporter once with the
phase's item count, increments it exactly once per item (success or
failure), and stops it once with `hadErr` true exactly when that phase
recorded at least one error: the full event trace of `getPostDetails`
(both its phases) and of `getCreatorsPosts`. -/
theorem progress_reporting :
    (∀ (postIds : List GoStr) (net : GoStr → DetailNet),
        (getPostDetails postIds net).events
          = .start postIds.length
              :: List.replicate postIds.length ProgressEvent.inc
              ++ ProgressEvent.stop (!(postDetailsPhase1 (postIds.map net)).errChan.isEmpty)
              :: .start (postDetailsPhase1 (postIds.map net)).resChan.length
              :: List.replicate (postDetailsPhase1 (postIds.map net)).resChan.length
                   ProgressEvent.inc
              ++ [ProgressEvent.stop
                  (!(postDetailsPhase2
                      (postDetailsPhase1 (postIds.map net)).resChan).errSlice.isEmpty)])
    ∧ (∀ (postIds0 creatorIds pageNums : List GoStr)
        (fetch : GoStr → GoStr → Except ErrCode (List GoStr)) (run : CreatorsPostsRun),
        getCreatorsPosts postIds0 creatorIds pageNums fetch = .ok run →
        run.events
          = .start creatorIds.length :: List.replicate creatorIds.length ProgressEvent.inc
              ++ [ProgressEvent.stop (!run.errSlice.isEmpty)]) := by
  constructor
  · intro postIds net
    rw [getPostDetails]
    dsimp only
    rw [phase1_events, phase2_events, List.length_map]
  · intro postIds0 creatorIds pageNums fetch run h
    rw [getCreatorsPosts] at h
    by_cases hlen : creatorIds.length ≠ pageNums.length
    · rw [if_pos hlen] at h
      cases h
    · rw [if_neg hlen] at h
      dsimp only at h
      injection h with h2
      rw [← h2]
      dsimp only
      rw [creatorsLoop_events, List.length_map, List.length_zip]
      have heq : creatorIds.length = pageNums.length := not_ne_iff.mp hlen
      have hmin : min creatorIds.length pageNums.length = creatorIds.length := by omega
      rw [hmin]

/-- Witness for C7: one creator whose fetch succeeds produces the trace
start(1), one increment, stop(no errors). -/
theorem progress_reporting_witness :
    (CreatorsPostsRun.mk [.start 1, .inc, .stop false] [['p']] []).events
      = .start 1 :: List.replicate 1 ProgressEvent.inc
          ++ [ProgressEvent.stop (!([] : List ErrCode).isEmpty)] :=
  progress_reporting.2 [] [['c']] [[]] (fun _ _ => Except.ok [['p']])
    (CreatorsPostsRun.mk [.start 1, .inc, .stop false] [['p']] []) (by decide)

/-- **C8.** Mismatched parallel slices (creator IDs vs page specs) make
`getCreatorsPosts` abort with the fatal `DEV_ERROR` panic before any
progress reporting or network request: the result is the `DEV_ERROR`
outcome for every `fetch`, which is never consulted. -/
theorem mismatched_slices_abort :
    ∀ (postIds0 creatorIds pageNums : List GoStr)
      (fetch : GoStr → GoStr → Except ErrCode (List GoStr)),
      creatorIds.length ≠ pageNums.length →
      getCreatorsPosts postIds0 creatorIds pageNums fetch = .error .DEV_ERROR := by
  intro postIds0 creatorIds pageNums fetch h
  rw [getCreatorsPosts, if_pos h]

/-- Witness for C8: one creator URL with zero page specs panics with
`DEV_ERROR`. -/
theorem mismatched_slices_abort_witness :
    getCreatorsPosts [] [['a']] [] (fun _ _ => Except.ok []) = .error .DEV_ERROR :=
  mismatched_slices_abort [] [['a']] [] (fun _ _ => Except.ok []) (by decide)

/-- The four websites `utils.GetSessionCookieInfo` knows; on any other
string the Go function panics with `DEV_ERROR`, so the embedding restricts
the argument to these (the panic path is outside every claim). -/
inductive Site where
  | FANTIA
  | PIXIV_FANBOX
  | PIXIV
  | KEMONO
deriving DecidableEq, Repr

/-- The two `http.SameSite` modes the cookie table uses. -/
inductive SameSiteMode where
  | laxMode
  | noneMode
deriving DecidableEq, Repr

/-- `utils.cookieInfo`. -/
structure cookieInfo where
  Domain : GoStr
  Name : GoStr
  SameSite : SameSiteMode
deriving DecidableEq, Repr

/-- Embedding of `utils.GetSessionCookieInfo` (`src/utils/useful.go:35`). -/
def GetSessionCookieInfo (site : Site) : cookieInfo :=
  match site with
  | .FANTIA =>
    ⟨['f', 'a', 'n', 't', 'i', 'a', '.', 'j', 'p'],
     ['_', 's', 'e', 's', 's', 'i', 'o', 'n', '_', 'i', 'd'], .laxMode⟩
  | .PIXIV_FANBOX =>
    ⟨['.', 'f', 'a', 'n', 'b', 'o', 'x', '.', 'c', 'c'],
     ['F', 'A', 'N', 'B', 'O', 'X', 'S', 'E', 'S', 'S', 'I', 'D'], .noneMode⟩
  | .PIXIV =>
    ⟨['.', 'p', 'i', 'x', 'i', 'v', '.', 'n', 'e', 't'],
     ['P', 'H', 'P', 'S', 'E', 'S', 'S', 'I', 'D'], .noneMode⟩
  | .KEMONO =>
    ⟨['k', 'e', 'm', 'o', 'n', 'o', '.', 'p', 'a', 'r', 't', 'y'],
     ['s', 'e', 's', 's', 'i', 'o', 'n'], .noneMode⟩

/-- The fields of Go's `http.Cookie` that `ParseNetscapeCookieFile` sets;
`Expires = none` models the zero `time.Time` (no expiry set). -/
structure HttpCookie where
  Name : GoStr
  Value : GoStr
  Domain : GoStr
  Path : GoStr
  Secure : Bool
  HttpOnly : Bool
  SameSite : SameSiteMode
  Expires : Option Int
deriving DecidableEq, Repr

/-- One entry of `utils.ExportedCookies` (the JSON cookie export format);
the float64 `expirationDate` is abstracted to the integer Go casts it to. -/
structure ExportedCookie where
  Domain : GoStr
  Expire : Int
  HttpOnly : Bool
  Name : GoStr
  Path : GoStr
  Secure : Bool
  Value : GoStr
  Session : Bool
deriving DecidableEq, Repr

/-- Whitespace trimmed by Go `strings.TrimSpace` (`unicode.IsSpace` over
the Latin-1 range: space, tab, newline, vertical tab, form feed, carriage
return, NEL, NBSP). -/
def isSpaceGo (c : Char) : Bool :=
  c.toNat = 32 ∨ c.toNat = 9 ∨ c.toNat = 10 ∨ c.toNat = 11 ∨ c.toNat = 12 ∨ c.toNat = 13
    ∨ c.toNat = 0x85 ∨ c.toNat = 0xA0

/-- Embedding of Go `strings.TrimSpace`. -/
def trimSpace (s : GoStr) : GoStr :=
  ((s.dropWhile isSpaceGo).reverse.dropWhile isSpaceGo).reverse

/-- Scan a reversed path for its extension: stop at a path separator,
return from the last dot. -/
def extFromRev : GoStr → GoStr → GoStr
  | [], _ => []
  | c :: rest, acc =>
    if c = '/' then []
    else if c = '.' then '.' :: acc
    else extFromRev rest (c :: acc)

/-- Embedding of Go `filepath.Ext`: the suffix of the final path element
starting at its last dot, or empty. -/
def filepathExt (s : GoStr) : GoStr :=
  extFromRev s.reverse []

example : filepathExt ['c', '.', 't', 'x', 't'] = ['.', 't', 'x', 't'] := by decide
example : filepathExt ['a', '.', 'b', '/', 'c'] = [] := by decide
example : filepathExt ['c', 's', 'v'] = [] := by decide

/-- The `http.Cookie` built from one tab-split Netscape line (indices
0 domain, 2 path, 3 secure flag, 5 name, 6 value; `HttpOnly` always
true). -/
def mkTxtCookie (sameSite : SameSiteMode) (cookieInfos : List GoStr)
    (expires : Option Int) : HttpCookie :=
  ⟨cookieInfos.getD 5 [], cookieInfos.getD 6 [], cookieInfos.getD 0 [],
   cookieInfos.getD 2 [], cookieInfos.getD 3 [] = ['T', 'R', 'U', 'E'],
   true, sameSite, expires⟩

/-- The per-line field handling of the `.txt` branch of
`ParseNetscapeCookieFile`: too few fields or a foreign cookie name is
skipped; an unparsable expiration prints a warning and skips the cookie
(`continue`); a positive expiration is recorded. -/
def parseTxtFields (sessionCookieName : GoStr) (sameSite : SameSiteMode)
    (cookieInfos : List GoStr) : Option HttpCookie :=
  if cookieInfos.length < 7 then none
  else if cookieInfos.getD 5 [] ≠ sessionCookieName then none
  else if cookieInfos.getD 4 [] = [] then some (mkTxtCookie sameSite cookieInfos none)
  else
    match atoi (cookieInfos.getD 4 []) with
    | none => none
    | some v =>
      if v > 0 then some (mkTxtCookie sameSite cookieInfos (some v))
      else some (mkTxtCookie sameSite cookieInfos none)

/-- One line of the `.txt` branch: trim, skip blanks and `#` comments, then
split on tabs and handle the fields. -/
def parseTxtCookieLine (sessionCookieName : GoStr) (sameSite : SameSiteMode)
    (lineBytes : GoStr) : Option HttpCookie :=
  if trimSpace lineBytes = [] then none
  else if (trimSpace lineBytes).head? = some '#' then none
  else parseTxtFields sessionCookieName sameSite (splitAll '\t' (trimSpace lineBytes))

/-- One entry of the `.json` branch: foreign names are skipped; a session
cookie gets no expiry, a persistent one gets `expirationDate`. -/
def parseJsonCookie (sessionCookieName : GoStr) (sameSite : SameSiteMode)
    (c : ExportedCookie) : Option HttpCookie :=
  if c.Name ≠ sessionCookieName then none
  else
    some ⟨c.Name, c.Value, c.Domain, c.Path, c.Secure, c.HttpOnly, sameSite,
      if c.Session then none else some c.Expire⟩

/-- Embedding of `utils.ParseNetscapeCookieFile` (`src/utils/useful.go:127`).
Filesystem and JSON decoding are supplied as inputs: `txtLines` is the line
sequence `ReadLine` yields when the path ends in `.txt`, `jsonDecoded` the
outcome `json.Decode` yields when it ends in `.json`. The file is assumed
to open and read cleanly (those failure paths return `OS_ERROR` and no
claim concerns them). -/
def ParseNetscapeCookieFile (filePath sessionId : GoStr) (website : Site)
    (txtLines : List GoStr) (jsonDecoded : Except Unit (List ExportedCookie)) :
    Except ErrCode (List HttpCookie) :=
  if filePath ≠ [] ∧ sessionId ≠ [] then .error .INPUT_ERROR
  else if filepathExt filePath = ['.', 't', 'x', 't'] then
    if (txtLines.filterMap (parseTxtCookieLine (GetSessionCookieInfo website).Name
          (GetSessionCookieInfo website).SameSite)).length = 0 then .error .INPUT_ERROR
    else .ok (txtLines.filterMap (parseTxtCookieLine (GetSessionCookieInfo website).Name
          (GetSessionCookieInfo website).SameSite))
  else if filepathExt filePath = ['.', 'j', 's', 'o', 'n'] then
    match jsonDecoded with
    | .error _ => .error .JSON_ERROR
    | .ok exportedCookies =>
      if (exportedCookies.filterMap (parseJsonCookie (GetSessionCookieInfo website).Name
            (GetSessionCookieInfo website).SameSite)).length = 0 then .error .INPUT_ERROR
      else .ok (exportedCookies.filterMap (parseJsonCookie (GetSessionCookieInfo website).Name
            (GetSessionCookieInfo website).SameSite))
  else .error .INPUT_ERROR

example :
    ParseNetscapeCookieFile ['c', '.', 't', 'x', 't'] [] .KEMONO
      [['d', '\t', 'T', '\t', '/', '\t', 'F', '\t', '\t',
        's', 'e', 's', 's', 'i', 'o', 'n', '\t', 'v']] (.ok [])
      = .ok [⟨['s', 'e', 's', 's', 'i', 'o', 'n'], ['v'], ['d'], ['/'],
             false, true, .noneMode, none⟩] := by decide

example :
    ParseNetscapeCookieFile ['c', '.', 't', 'x', 't'] ['s'] .KEMONO [] (.ok [])
      = .error .INPUT_ERROR := by decide

example :
    ParseNetscapeCookieFile ['c', '.', 'c', 's', 'v'] [] .KEMONO [] (.ok [])
      = .error .INPUT_ERROR := by decide

theorem parseTxtFields_name {name : GoStr} {ss : SameSiteMode} {infos : List GoStr}
    {c : HttpCookie} (h : parseTxtFields name ss infos = some c) : c.Name = name := by
  rw [parseTxtFields] at h
  by_cases h1 : infos.length < 7
  · rw [if_pos h1] at h; cases h
  · rw [if_neg h1] at h
    by_cases h2 : infos.getD 5 [] ≠ name
    · rw [if_pos h2] at h; cases h
    · rw [if_neg h2] at h
      rw [not_ne_iff] at h2
      by_cases h3 : infos.getD 4 [] = []
      · rw [if_pos h3] at h
        injection h with h4
        rw [← h4]
        exact h2
      · rw [if_neg h3] at h
        cases hat : atoi (infos.getD 4 []) with
        | none => rw [hat] at h; cases h
        | some v =>
          rw [hat] at h
          dsimp only at h
          by_cases h5 : v > 0
          · rw [if_pos h5] at h
            injection h with h4
            rw [← h4]
            exact h2
          · rw [if_neg h5] at h
            injection h with h4
            rw [← h4]
            exact h2

theorem parseTxtCookieLine_name {name : GoStr} {ss : SameSiteMode} {l : GoStr}
    {c : HttpCookie} (h : parseTxtCookieLine name ss l = some c) : c.Name = name := by
  rw [parseTxtCookieLine] at h
  by_cases h1 : trimSpace l = []
  · rw [if_pos h1] at h; cases h
  · rw [if_neg h1] at h
    by_cases h2 : (trimSpace l).head? = some '#'
    · rw [if_pos h2] at h; cases h
    · rw [if_neg h2] at h
      exact parseTxtFields_name h

theorem parseJsonCookie_name {name : GoStr} {ss : SameSiteMode} {ec : ExportedCookie}
    {c : HttpCookie} (h : parseJsonCookie name ss ec = some c) : c.Name = name := by
  rw [parseJsonCookie] at h
  by_cases h1 : ec.Name ≠ name
  · rw [if_pos h1] at h; cases h
  · rw [if_neg h1] at h
    rw [not_ne_iff] at h1
    injection h with h2
    rw [← h2]
    exact h1

/-- **C9.** Whenever `ParseNetscapeCookieFile` returns without error the
cookie list is non-empty and every cookie carries the session-cookie name
configured for the website; it returns `INPUT_ERROR` when both a cookie
file and a session ID are supplied, when the extension is neither `.txt`
nor `.json`, and when the file contains no matching session cookie. -/
theorem parseNetscapeCookieFile_spec :
    (∀ (filePath sessionId : GoStr) (website : Site) (txtLines : List GoStr)
        (jsonDecoded : Except Unit (List ExportedCookie)) (cookies : List HttpCookie),
        ParseNetscapeCookieFile filePath sessionId website txtLines jsonDecoded = .ok cookies →
        cookies ≠ [] ∧ ∀ c ∈ cookies, c.Name = (GetSessionCookieInfo website).Name)
    ∧ (∀ (filePath sessionId : GoStr) (website : Site) (txtLines : List GoStr)
        (jsonDecoded : Except Unit (List ExportedCookie)),
        filePath ≠ [] → sessionId ≠ [] →
        ParseNetscapeCookieFile filePath sessionId website txtLines jsonDecoded
          = .error .INPUT_ERROR)
    ∧ (∀ (filePath sessionId : GoStr) (website : Site) (txtLines : List GoStr)
        (jsonDecoded : Except Unit (List ExportedCookie)),
        filepathExt filePath ≠ ['.', 't', 'x', 't'] →
        filepathExt filePath ≠ ['.', 'j', 's', 'o', 'n'] →
        ParseNetscapeCookieFile filePath sessionId website txtLines jsonDecoded
          = .error .INPUT_ERROR)
    ∧ (∀ (filePath sessionId : GoStr) (website : Site) (txtLines : List GoStr)
        (jsonDecoded : Except Unit (List ExportedCookie)),
        filepathExt filePath = ['.', 't', 'x', 't'] →
        txtLines.filterMap (parseTxtCookieLine (GetSessionCookieInfo website).Name
          (GetSessionCookieInfo website).SameSite) = [] →
        ParseNetscapeCookieFile filePath sessionId website txtLines jsonDecoded
          = .error .INPUT_ERROR)
    ∧ (∀ (filePath sessionId : GoStr) (website : Site) (txtLines : List GoStr)
        (exportedCookies : List ExportedCookie),
        filepathExt filePath = ['.', 'j', 's', 'o', 'n'] →
        exportedCookies.filterMap (parseJsonCookie (GetSessionCookieInfo website).Name
          (GetSessionCookieInfo website).SameSite) = [] →
        ParseNetscapeCookieFile filePath sessionId website txtLines (.ok exportedCookies)
          = .error .INPUT_ERROR) := by
  have hext : ∀ s : GoStr, filepathExt s = ['.', 't', 'x', 't'] →
      filepathExt s ≠ ['.', 'j', 's', 'o', 'n'] := by
    intro s h1 h2
    rw [h1] at h2
    cases h2
  refine ⟨?_, ?_, ?_, ?_, ?_⟩
  · intro filePath sessionId website txtLines jsonDecoded cookies h
    rw [ParseNetscapeCookieFile.eq_def] at h
    by_cases hflags : filePath ≠ [] ∧ sessionId ≠ []
    · rw [if_pos hflags] at h; cases h
    · rw [if_neg hflags] at h
      by_cases htxt : filepathExt filePath = ['.', 't', 'x', 't']
      · rw [if_pos htxt] at h
        by_cases hz : (txtLines.filterMap (parseTxtCookieLine (GetSessionCookieInfo website).Name
            (GetSessionCookieInfo website).SameSite)).length = 0
        · rw [if_pos hz] at h; cases h
        · rw [if_neg hz] at h
          injection h with h2
          rw [← h2]
          constructor
          · intro hnil
            rw [hnil] at hz
            exact hz rfl
          · intro c hc
            rcases List.mem_filterMap.mp hc with ⟨l2, _, hp⟩
            exact parseTxtCookieLine_name hp
      · rw [if_neg htxt] at h
        by_cases hjson : filepathExt filePath = ['.', 'j', 's', 'o', 'n']
        · rw [if_pos hjson] at h
          cases jsonDecoded with
          | error e => dsimp only at h; cases h
          | ok exportedCookies =>
            dsimp only at h
            by_cases hz : (exportedCookies.filterMap
                (parseJsonCookie (GetSessionCookieInfo website).Name
                  (GetSessionCookieInfo website).SameSite)).length = 0
            · rw [if_pos hz] at h; cases h
            · rw [if_neg hz] at h
              injection h with h2
              rw [← h2]
              constructor
              · intro hnil
                rw [hnil] at hz
                exact hz rfl
              · intro c hc
                rcases List.mem_filterMap.mp hc with ⟨ec, _, hp⟩
                exact parseJsonCookie_name hp
        · rw [if_neg hjson] at h; cases h
  · intro filePath sessionId website txtLines jsonDecoded h1 h2
    rw [ParseNetscapeCookieFile.eq_def, if_pos ⟨h1, h2⟩]
  · intro filePath sessionId website txtLines jsonDecoded h1 h2
    rw [ParseNetscapeCookieFile.eq_def]
    by_cases hflags : filePath ≠ [] ∧ sessionId ≠ []
    · rw [if_pos hflags]
    · rw [if_neg hflags, if_neg h1, if_neg h2]
  · intro filePath sessionId website txtLines jsonDecoded h1 h2
    rw [ParseNetscapeCookieFile.eq_def]
    by_cases hflags : filePath ≠ [] ∧ sessionId ≠ []
    · rw [if_pos hflags]
    · rw [if_neg hflags, if_pos h1, if_pos (by rw [h2]; rfl)]
  · intro filePath sessionId website txtLines exportedCookies h1 h2
    rw [ParseNetscapeCookieFile.eq_def]
    by_cases hflags : filePath ≠ [] ∧ sessionId ≠ []
    · rw [if_pos hflags]
    · rw [if_neg hflags,
        if_neg (fun hh => absurd (hh.symm.trans h1) (by decide)), if_pos h1]
      dsimp only
      rw [if_pos (by rw [h2]; rfl)]

/-- Witness for C9: a one-line Kemono cookie file parses to a single cookie
named `session`. -/
theorem parseNetscapeCookieFile_spec_witness :
    ([⟨['s', 'e', 's', 's', 'i', 'o', 'n'], ['v'], ['d'], ['/'],
       false, true, .noneMode, none⟩] : List HttpCookie) ≠ []
    ∧ ∀ c ∈ ([⟨['s', 'e', 's', 's', 'i', 'o', 'n'], ['v'], ['d'], ['/'],
       false, true, .noneMode, none⟩] : List HttpCookie),
        c.Name = (GetSessionCookieInfo .KEMONO).Name :=
  parseNetscapeCookieFile_spec.1 ['c', '.', 't', 'x', 't'] [] .KEMONO
    [['d', '\t', 'T', '\t', '/', '\t', 'F', '\t', '\t',
      's', 'e', 's', 's', 'i', 'o', 'n', '\t', 'v']] (.ok [])
    [⟨['s', 'e', 's', 's', 'i', 'o', 'n'], ['v'], ['d'], ['/'],
      false, true, .noneMode, none⟩] (by decide)

/-- Upper-case hexadecimal digit, as `url.QueryEscape` emits. -/
def upperHexDigit (n : Nat) : Char :=
  if n < 10 then Char.ofNat (48 + n) else Char.ofNat (55 + n)

/-- UTF-8 encoding of one character, as Go strings are byte sequences. -/
def utf8Bytes (c : Char) : List Nat :=
  if c.toNat < 0x80 then [c.toNat]
  else if c.toNat < 0x800 then
    [0xC0 + c.toNat / 64, 0x80 + c.toNat % 64]
  else if c.toNat < 0x10000 then
    [0xE0 + c.toNat / 4096, 0x80 + (c.toNat / 64) % 64, 0x80 + c.toNat % 64]
  else
    [0xF0 + c.toNat / 262144, 0x80 + (c.toNat / 4096) % 64,
     0x80 + (c.toNat / 64) % 64, 0x80 + c.toNat % 64]

/-- Embedding of Go `url.QueryEscape` on one character: a space becomes
`+`; ASCII letters, digits and `-_.~` stay; every other byte becomes
`%XX`. -/
def queryEscapeChar (c : Char) : GoStr :=
  if c = ' ' then ['+']
  else if (65 ≤ c.toNat ∧ c.toNat ≤ 90) ∨ (97 ≤ c.toNat ∧ c.toNat ≤ 122)
      ∨ (48 ≤ c.toNat ∧ c.toNat ≤ 57) ∨ c = '-' ∨ c = '_' ∨ c = '.' ∨ c = '~' then [c]
  else (utf8Bytes c).flatMap fun b => ['%', upperHexDigit (b / 16), upperHexDigit (b % 16)]

/-- Embedding of Go `url.QueryEscape`. -/
def queryEscape (s : GoStr) : GoStr :=
  s.flatMap queryEscapeChar

example : queryEscape ['a', ' ', 'b'] = ['a', '+', 'b'] := by decide
example : queryEscape ['/'] = ['%', '2', 'F'] := by decide

/-- Embedding of `utils.ParamsToString` (`src/utils/useful.go:574`): build
`"key=value&"` per entry (values query-escaped, keys not), then slice off
the last byte. On the empty map the Go slice expression
`paramsStr[:len(paramsStr)-1]` panics (slice bounds out of range), modelled
as `none`. The Go map's iteration order is abstracted by taking the
entries as a list. -/
def ParamsToString (params : List (GoStr × GoStr)) : Option GoStr :=
  if params.foldl (fun acc kv => acc ++ (kv.1 ++ '=' :: (queryEscape kv.2 ++ ['&']))) [] = []
  then none
  else some ((params.foldl
      (fun acc kv => acc ++ (kv.1 ++ '=' :: (queryEscape kv.2 ++ ['&']))) []).dropLast)

example : ParamsToString [] = none := by decide
example : ParamsToString [(['a'], ['b'])] = some ['a', '=', 'b'] := by decide
example : ParamsToString [(['a'], ['b']), (['c'], ['/'])]
    = some ['a', '=', 'b', '&', 'c', '=', '%', '2', 'F'] := by decide

theorem paramsToString_foldl (params : List (GoStr × GoStr)) :
    ∀ acc : GoStr,
      params.foldl (fun acc kv => acc ++ (kv.1 ++ '=' :: (queryEscape kv.2 ++ ['&']))) acc
        = acc ++ (params.map fun kv => kv.1 ++ '=' :: (queryEscape kv.2 ++ ['&'])).flatten := by
  induction params with
  | nil => intro acc; simp
  | cons p ps ih =>
    intro acc
    rw [List.foldl_cons, ih, List.map_cons, List.flatten_cons, List.append_assoc]

theorem flatten_amp_entries (entry : GoStr × GoStr → GoStr) :
    ∀ params : List (GoStr × GoStr), params ≠ [] →
      (params.map fun kv => entry kv ++ ['&']).flatten
        = List.intercalate ['&'] (params.map entry) ++ ['&'] := by
  intro params
  induction params with
  | nil => intro h; exact absurd rfl h
  | cons p ps ih =>
    intro _
    cases ps with
    | nil => simp [List.intercalate]
    | cons q qs =>
      have hstep : List.intercalate ['&'] (List.map entry (p :: q :: qs))
          = entry p ++ ['&'] ++ List.intercalate ['&'] (List.map entry (q :: qs)) := by
        rw [List.map_cons, List.map_cons]
        simp [List.intercalate, List.intersperse]
      rw [List.map_cons, List.flatten_cons, ih (by simp), hstep]
      simp [List.append_assoc]

/-- **C10.** `ParamsToString` on a non-empty parameter list returns the
`key=value` pairs (values query-escaped) joined by `&` with no trailing
`&`; on the empty map the Go code panics with a slice-bounds error instead
of returning the empty string (modelled as `none`). -/
theorem paramsToString_spec :
    ParamsToString [] = none
    ∧ (∀ params : List (GoStr × GoStr), params ≠ [] →
        ParamsToString params
          = some (List.intercalate ['&']
              (params.map fun kv => kv.1 ++ '=' :: queryEscape kv.2))) := by
  refine ⟨by decide, ?_⟩
  intro params hne
  have hfold := paramsToString_foldl params []
  have hjoin := flatten_amp_entries (fun kv => kv.1 ++ '=' :: queryEscape kv.2) params hne
  have hjoin2 : (params.map fun kv => kv.1 ++ '=' :: (queryEscape kv.2 ++ ['&'])).flatten
      = List.intercalate ['&'] (params.map fun kv => kv.1 ++ '=' :: queryEscape kv.2)
          ++ ['&'] := by
    rw [← hjoin]
    congr 1
    refine List.map_congr_left ?_
    intro kv _
    simp [List.append_assoc]
  rw [ParamsToString, hfold, List.nil_append, hjoin2,
    if_neg (by simp), List.dropLast_concat]

/-- Witness for C10: a two-entry map renders with one separating `&` and no
trailing `&`. -/
theorem paramsToString_spec_witness :
    ParamsToString [(['a'], ['b']), (['c'], ['d'])]
      = some (List.intercalate ['&']
          ([(['a'], ['b']), (['c'], ['d'])].map fun kv => kv.1 ++ '=' :: queryEscape kv.2)) :=
  paramsToString_spec.2 [(['a'], ['b']), (['c'], ['d'])] (by decide)
